import Mathlib

/-!
Verification of the sparse BOP-DMD optimization kernels
(`pydmd/sbopdmd_utils.py` and `pydmd/sbopdmd.py`).

Complex matrices are embedded as `Matrix (Fin m) (Fin n) ℂ`; the
floating-point scalars of the code are embedded as real numbers.  Each
definition below is a direct transcription of the corresponding Python
function; entrywise numpy operations become entrywise Lean definitions.
-/

namespace SBOPDMD

/-- Sum of the squared-magnitude-based L0 count over all entries:
`np.sum(X != 0.0)` from `L0_norm` in `sbopdmd_utils.py`. -/
noncomputable def L0_norm {m n : ℕ} (X : Matrix (Fin m) (Fin n) ℂ) : ℝ :=
  ∑ i, ∑ j, if X i j ≠ 0 then (1 : ℝ) else 0

/-- `np.sum(np.abs(X))` from `L1_norm` in `sbopdmd_utils.py`. -/
noncomputable def L1_norm {m n : ℕ} (X : Matrix (Fin m) (Fin n) ℂ) : ℝ :=
  ∑ i, ∑ j, Complex.abs (X i j)

/-- Euclidean norm of column `j` of `X`: `np.linalg.norm(X, 2, axis=0)`. -/
noncomputable def colNorm {m n : ℕ} (X : Matrix (Fin m) (Fin n) ℂ) (j : Fin n) : ℝ :=
  Real.sqrt (∑ i, Complex.abs (X i j) ^ 2)

/-- `np.sum(np.linalg.norm(X, 2, axis=0))` from `L2_norm` in `sbopdmd_utils.py`. -/
noncomputable def L2_norm {m n : ℕ} (X : Matrix (Fin m) (Fin n) ℂ) : ℝ :=
  ∑ j, colNorm X j

/-- `np.sum(np.abs(X) ** 2)` from `L2_norm_squared` in `sbopdmd_utils.py`. -/
noncomputable def L2_norm_squared {m n : ℕ} (X : Matrix (Fin m) (Fin n) ℂ) : ℝ :=
  ∑ i, ∑ j, Complex.abs (X i j) ^ 2

/-- Elementwise complex sign from `sign` in `sbopdmd_utils.py`: zero entries map
to zero, nonzero entries `x` map to `x / |x|`. -/
noncomputable def sign (z : ℂ) : ℂ :=
  if z = 0 then 0 else z / (Complex.abs z : ℝ)

/-- `hard_threshold` from `sbopdmd_utils.py`: zero out every entry whose squared
magnitude is below `2 * gamma`, keep all other entries unchanged. -/
noncomputable def hard_threshold {m n : ℕ} (X : Matrix (Fin m) (Fin n) ℂ)
    (gamma : ℝ) : Matrix (Fin m) (Fin n) ℂ :=
  Matrix.of fun i j => if Complex.abs (X i j) ^ 2 < 2 * gamma then 0 else X i j

/-- `soft_threshold` from `sbopdmd_utils.py`:
`sign(X) * max(|X| - gamma, 0)` entrywise. -/
noncomputable def soft_threshold {m n : ℕ} (X : Matrix (Fin m) (Fin n) ℂ)
    (gamma : ℝ) : Matrix (Fin m) (Fin n) ℂ :=
  Matrix.of fun i j => sign (X i j) * ((max (Complex.abs (X i j) - gamma) 0 : ℝ) : ℂ)

/-- `group_lasso` from `sbopdmd_utils.py`: columns whose Euclidean norm is below
`gamma` are zeroed (the code first replaces their norm by `1.0` and zeroes the
column); all other columns are scaled by `1 - gamma / norm`. -/
noncomputable def group_lasso {m n : ℕ} (X : Matrix (Fin m) (Fin n) ℂ)
    (gamma : ℝ) : Matrix (Fin m) (Fin n) ℂ :=
  Matrix.of fun i j =>
    if colNorm X j < gamma then 0
    else ((1 - gamma / colNorm X j : ℝ) : ℂ) * X i j

/-- `scaled_hard_threshold` from `sbopdmd_utils.py`:
`scale * hard_threshold(X, (gamma * alpha) / scale)` with
`scale = 1 / (1 + 2 * gamma * beta)`. -/
noncomputable def scaled_hard_threshold {m n : ℕ} (X : Matrix (Fin m) (Fin n) ℂ)
    (gamma alpha beta : ℝ) : Matrix (Fin m) (Fin n) ℂ :=
  let scale : ℝ := 1 / (1 + 2 * gamma * beta)
  scale • hard_threshold X ((gamma * alpha) / scale)

/-- `scaled_soft_threshold` from `sbopdmd_utils.py`:
`scale * soft_threshold(X, gamma * alpha)` with
`scale = 1 / (1 + 2 * gamma * beta)`. -/
noncomputable def scaled_soft_threshold {m n : ℕ} (X : Matrix (Fin m) (Fin n) ℂ)
    (gamma alpha beta : ℝ) : Matrix (Fin m) (Fin n) ℂ :=
  let scale : ℝ := 1 / (1 + 2 * gamma * beta)
  scale • soft_threshold X (gamma * alpha)

/-- Modelled from the spec: the spec describes the scaled thresholds as
"rescaling input by `1/(1+2*gamma*beta)` and applying the base threshold with an
adjusted step `gamma*alpha`"; this definition follows those words (rescale the
input first, then threshold with step `gamma*alpha`), to be compared with the
source definition `scaled_hard_threshold`. -/
noncomputable def specScaledHardThreshold {m n : ℕ} (X : Matrix (Fin m) (Fin n) ℂ)
    (gamma alpha beta : ℝ) : Matrix (Fin m) (Fin n) ℂ :=
  let scale : ℝ := 1 / (1 + 2 * gamma * beta)
  hard_threshold (scale • X) (gamma * alpha)

/-- Modelled from the spec: spec-worded counterpart of `scaled_soft_threshold`
(rescale the input first, then soft-threshold with step `gamma*alpha`). -/
noncomputable def specScaledSoftThreshold {m n : ℕ} (X : Matrix (Fin m) (Fin n) ℂ)
    (gamma alpha beta : ℝ) : Matrix (Fin m) (Fin n) ℂ :=
  let scale : ℝ := 1 / (1 + 2 * gamma * beta)
  soft_threshold (scale • X) (gamma * alpha)

/-- Concrete 1x1 matrix used below as a counterexample input. -/
noncomputable def demoB : Matrix (Fin 1) (Fin 1) ℂ := !![3]

lemma demoB_apply : demoB 0 0 = 3 := by
  simp [demoB]

lemma abs_three : Complex.abs (3 : ℂ) = 3 := by
  simp [Complex.abs_ofNat]

lemma sign_three : sign (3 : ℂ) = 1 := by
  simp [sign, abs_three]

lemma sign_two : sign (2 : ℂ) = 1 := by
  have h2 : Complex.abs (2 : ℂ) = 2 := Complex.abs_ofNat 2
  simp [sign, h2]

lemma soft_demoB : soft_threshold demoB 1 = !![2] := by
  ext i j
  fin_cases i; fin_cases j
  simp [soft_threshold, demoB_apply, abs_three, sign_three]
  norm_num

lemma abs_two : Complex.abs (2 : ℂ) = 2 := by
  simp [Complex.abs_ofNat]

lemma soft_demoB_twice : soft_threshold (!![2] : Matrix (Fin 1) (Fin 1) ℂ) 1 = !![1] := by
  ext i j
  fin_cases i; fin_cases j
  simp [soft_threshold, abs_two, sign_two]
  norm_num

lemma colNorm_demoB : colNorm demoB 0 = 3 := by
  have : (∑ i, Complex.abs (demoB i 0) ^ 2) = 9 := by
    simp [Fin.sum_univ_one, demoB_apply, abs_three]
    norm_num
  rw [colNorm, this]
  rw [show (9 : ℝ) = 3 ^ 2 by norm_num, Real.sqrt_sq (by norm_num)]

lemma colNorm_two : colNorm (!![2] : Matrix (Fin 1) (Fin 1) ℂ) 0 = 2 := by
  have : (∑ i, Complex.abs ((!![2] : Matrix (Fin 1) (Fin 1) ℂ) i 0) ^ 2) = 4 := by
    simp [Fin.sum_univ_one, abs_two]
    norm_num
  rw [colNorm, this]
  rw [show (4 : ℝ) = 2 ^ 2 by norm_num, Real.sqrt_sq (by norm_num)]

lemma gl_demoB : group_lasso demoB 1 = !![2] := by
  ext i j
  fin_cases i; fin_cases j
  simp [group_lasso, colNorm_demoB, demoB_apply]
  norm_num

lemma gl_demoB_twice : group_lasso (!![2] : Matrix (Fin 1) (Fin 1) ℂ) 1 = !![1] := by
  ext i j
  fin_cases i; fin_cases j
  simp [group_lasso, colNorm_two]
  norm_num

lemma one_ne_two_mat : (!![1] : Matrix (Fin 1) (Fin 1) ℂ) ≠ !![2] := by
  intro h
  have h00 := congrFun (congrFun h 0) 0
  simp at h00

/-- C2 (amended part): `hard_threshold` is idempotent for every complex matrix
`X` and every step `gamma`: applying it twice with the same `gamma` yields the
same result as applying it once. -/
theorem hard_threshold_idempotent {m n : ℕ} (X : Matrix (Fin m) (Fin n) ℂ)
    (gamma : ℝ) :
    hard_threshold (hard_threshold X gamma) gamma = hard_threshold X gamma := by
  ext i j
  simp only [hard_threshold, Matrix.of_apply]
  by_cases h : Complex.abs (X i j) ^ 2 < 2 * gamma
  · simp [h]
  · simp [h]

/-- C2 (counterexample): `soft_threshold` and `group_lasso` are not idempotent;
at the 1x1 matrix `[[3]]` with `gamma = 1`, applying either operator twice
differs from applying it once. -/
theorem idempotence_counterexample :
    soft_threshold (soft_threshold demoB 1) 1 ≠ soft_threshold demoB 1
    ∧ group_lasso (group_lasso demoB 1) 1 ≠ group_lasso demoB 1 := by
  constructor
  · rw [soft_demoB, soft_demoB_twice]
    exact one_ne_two_mat
  · rw [gl_demoB, gl_demoB_twice]
    exact one_ne_two_mat

/-- C3 (amended): entrywise closed forms of the two scaled thresholds.
`scaled_hard_threshold` applies the base hard threshold with step
`gamma*alpha/scale` (zeroing iff `|x|^2 < 2*gamma*alpha*(1+2*gamma*beta)`) and
then rescales the output by `scale = 1/(1+2*gamma*beta)`; `scaled_soft_threshold`
applies the base soft threshold with step `gamma*alpha` and then rescales the
output by `scale`.  The rescaling acts on the output, not on the input. -/
theorem scaled_thresholds_closed_form {m n : ℕ} (X : Matrix (Fin m) (Fin n) ℂ)
    (gamma alpha beta : ℝ) :
    (∀ i j, scaled_hard_threshold X gamma alpha beta i j =
      if Complex.abs (X i j) ^ 2 < 2 * (gamma * alpha * (1 + 2 * gamma * beta)) then 0
      else ((1 / (1 + 2 * gamma * beta) : ℝ) : ℂ) * X i j)
    ∧ (∀ i j, scaled_soft_threshold X gamma alpha beta i j =
      ((1 / (1 + 2 * gamma * beta) : ℝ) : ℂ) *
        (sign (X i j) * ((max (Complex.abs (X i j) - gamma * alpha) 0 : ℝ) : ℂ))) := by
  constructor
  · intro i j
    have hstep : (gamma * alpha) / (1 / (1 + 2 * gamma * beta) : ℝ) =
        gamma * alpha * (1 + 2 * gamma * beta) := by
      rw [div_eq_mul_inv, one_div, inv_inv]
    simp only [scaled_hard_threshold, Matrix.smul_apply, hard_threshold,
      Matrix.of_apply, hstep]
    split_ifs with h
    · simp
    · rw [Complex.real_smul]
  · intro i j
    simp only [scaled_soft_threshold, Matrix.smul_apply, soft_threshold,
      Matrix.of_apply, Complex.real_smul]

/-- Concrete 1x1 matrix `[[2]]` used as counterexample input. -/
noncomputable def demoC : Matrix (Fin 1) (Fin 1) ℂ := !![2]

lemma shard_demo : scaled_hard_threshold demoB 1 1 1 0 0 = 1 := by
  rw [show scaled_hard_threshold demoB 1 1 1 0 0 =
    ((1 / (1 + 2 * 1 * 1) : ℝ)) •
      (if Complex.abs (demoB 0 0) ^ 2 < 2 * ((1 * 1) / (1 / (1 + 2 * 1 * 1) : ℝ)) then 0
        else demoB 0 0) from rfl]
  rw [demoB_apply, abs_three, if_neg (by norm_num), Complex.real_smul]
  push_cast
  norm_num

lemma spec_shard_demo : specScaledHardThreshold demoB 1 1 1 0 0 = 0 := by
  rw [show specScaledHardThreshold demoB 1 1 1 0 0 =
    (if Complex.abs ((1 / (1 + 2 * 1 * 1) : ℝ) • demoB 0 0) ^ 2 < 2 * (1 * 1) then 0
      else (1 / (1 + 2 * 1 * 1) : ℝ) • demoB 0 0) from rfl]
  rw [demoB_apply, if_pos]
  rw [Complex.real_smul]
  have h1 : ((1 / (1 + 2 * 1 * 1) : ℝ) : ℂ) * 3 = 1 := by
    push_cast
    norm_num
  rw [h1]
  simp

lemma ssoft_demo : scaled_soft_threshold demoC 1 1 1 0 0 ≠ 0 := by
  rw [show scaled_soft_threshold demoC 1 1 1 0 0 =
    ((1 / (1 + 2 * 1 * 1) : ℝ)) •
      (sign (demoC 0 0) * ((max (Complex.abs (demoC 0 0) - 1 * 1) 0 : ℝ) : ℂ)) from rfl]
  rw [show demoC 0 0 = 2 from by simp [demoC], abs_two, sign_two, Complex.real_smul]
  push_cast
  norm_num

lemma spec_ssoft_demo : specScaledSoftThreshold demoC 1 1 1 0 0 = 0 := by
  rw [show specScaledSoftThreshold demoC 1 1 1 0 0 =
    sign ((1 / (1 + 2 * 1 * 1) : ℝ) • demoC 0 0) *
      ((max (Complex.abs ((1 / (1 + 2 * 1 * 1) : ℝ) • demoC 0 0) - 1 * 1) 0 : ℝ) : ℂ)
    from rfl]
  rw [show demoC 0 0 = 2 from by simp [demoC], Complex.real_smul]
  have habs : Complex.abs (((1 / (1 + 2 * 1 * 1) : ℝ) : ℂ) * 2) = 2 / 3 := by
    rw [map_mul, Complex.abs_ofReal, abs_two,
      abs_of_pos (by norm_num : (0 : ℝ) < 1 / (1 + 2 * 1 * 1))]
    norm_num
  rw [habs, show max ((2 : ℝ) / 3 - 1 * 1) 0 = 0 from by norm_num]
  simp

/-- C3 (counterexample): at `X = [[3]]` (hard case) and `X = [[2]]` (soft case)
with `gamma = alpha = beta = 1`, the source's scaled thresholds differ from the
spec-worded "rescale the input, then threshold with step `gamma*alpha`"
operators. -/
theorem scaled_threshold_spec_counterexample :
    scaled_hard_threshold demoB 1 1 1 ≠ specScaledHardThreshold demoB 1 1 1
    ∧ scaled_soft_threshold demoC 1 1 1 ≠ specScaledSoftThreshold demoC 1 1 1 := by
  constructor
  · intro h
    have h00 := congrFun (congrFun h 0) 0
    rw [shard_demo, spec_shard_demo] at h00
    exact one_ne_zero h00
  · intro h
    have h00 := congrFun (congrFun h 0) 0
    rw [spec_ssoft_demo] at h00
    exact ssoft_demo h00

lemma colNorm_eq_zero_iff {m n : ℕ} (X : Matrix (Fin m) (Fin n) ℂ) (j : Fin n) :
    colNorm X j = 0 ↔ ∀ i, X i j = 0 := by
  rw [colNorm, Real.sqrt_eq_zero (by positivity)]
  rw [Finset.sum_eq_zero_iff_of_nonneg (fun i _ => by positivity)]
  constructor
  · intro h i
    have := h i (Finset.mem_univ i)
    have habs : Complex.abs (X i j) = 0 := by
      nlinarith [Complex.abs.nonneg (X i j)]
    exact (AbsoluteValue.eq_zero _).mp habs
  · intro h i _
    rw [h i]
    simp

/-- C4 (amended): for `gamma > 0`, `group_lasso X gamma` produces an all-zero
column at index `j` if and only if the Euclidean norm of column `j` of `X` is
at most `gamma` (columns with norm exactly `gamma` are also zeroed, by the
shrink factor `1 - gamma/norm = 0`); every column whose norm is not below
`gamma` is scaled entrywise by the factor `1 - gamma/norm`. -/
theorem group_lasso_zero_column_iff {m n : ℕ} (X : Matrix (Fin m) (Fin n) ℂ)
    (gamma : ℝ) (hγ : 0 < gamma) (j : Fin n) :
    ((∀ i, group_lasso X gamma i j = 0) ↔ colNorm X j ≤ gamma)
    ∧ (gamma ≤ colNorm X j →
        ∀ i, group_lasso X gamma i j = ((1 - gamma / colNorm X j : ℝ) : ℂ) * X i j) := by
  constructor
  · constructor
    · intro hz
      by_contra hgt
      push_neg at hgt
      have hpos : 0 < colNorm X j := hγ.trans hgt
      have hfac : (0 : ℝ) < 1 - gamma / colNorm X j := by
        have hlt1 : gamma / colNorm X j < 1 := (div_lt_one hpos).mpr hgt
        linarith
      have hallzero : ∀ i, X i j = 0 := by
        intro i
        have h := hz i
        rw [group_lasso, Matrix.of_apply, if_neg (not_lt.mpr hgt.le)] at h
        rcases mul_eq_zero.mp h with hc | hx
        · exfalso
          have hre : (1 - gamma / colNorm X j : ℝ) = 0 := by exact_mod_cast hc
          linarith
        · exact hx
      have hzero : colNorm X j = 0 := (colNorm_eq_zero_iff X j).mpr hallzero
      rw [hzero] at hgt
      linarith
    · intro hle i
      rcases lt_or_eq_of_le hle with hlt | heq
      · rw [group_lasso, Matrix.of_apply, if_pos hlt]
      · rw [group_lasso, Matrix.of_apply, if_neg (by rw [heq]; exact lt_irrefl gamma)]
        rw [heq, div_self hγ.ne']
        simp
  · intro hge i
    rw [group_lasso, Matrix.of_apply, if_neg (not_lt.mpr hge)]

/-- C4 (witness): the amended theorem applied at the concrete matrix `[[3]]`
with `gamma = 1` and column index `0`. -/
theorem group_lasso_zero_column_iff_witness :
    (0 : ℝ) < 1 ∧
    (((∀ i, group_lasso demoB 1 i 0 = 0) ↔ colNorm demoB 0 ≤ 1)
     ∧ (1 ≤ colNorm demoB 0 →
         ∀ i, group_lasso demoB 1 i 0 = ((1 - 1 / colNorm demoB 0 : ℝ) : ℂ) * demoB i 0)) :=
  ⟨by norm_num, group_lasso_zero_column_iff demoB 1 (by norm_num) 0⟩

lemma colNorm_unit : colNorm (!![1] : Matrix (Fin 1) (Fin 1) ℂ) 0 = 1 := by
  have h : (∑ i, Complex.abs ((!![1] : Matrix (Fin 1) (Fin 1) ℂ) i 0) ^ 2) = 1 := by
    simp [Fin.sum_univ_one]
  rw [colNorm, h, Real.sqrt_one]

/-- C4 (counterexample): at `X = [[1]]` and `gamma = 1` the column norm is
exactly `gamma` (not strictly below it), yet `group_lasso` produces an all-zero
column, refuting the claimed "if and only if strictly below gamma". -/
theorem group_lasso_boundary_counterexample :
    (∀ i, group_lasso (!![1] : Matrix (Fin 1) (Fin 1) ℂ) 1 i 0 = 0)
    ∧ ¬ colNorm (!![1] : Matrix (Fin 1) (Fin 1) ℂ) 0 < 1 := by
  constructor
  · intro i
    rw [group_lasso, Matrix.of_apply, if_neg (by rw [colNorm_unit]; exact lt_irrefl 1)]
    rw [colNorm_unit]
    norm_num
  · rw [colNorm_unit]
    exact lt_irrefl 1

/-- Stall-detection branch of the outer loop of `_variable_projection`
(`sbopdmd.py`): a stall is declared at iteration `itr` iff `itr > 0` and the
signed decrease `all_obj[itr-1] - all_obj[itr]` is smaller than
`eps_stall * all_obj[itr-1]` (no absolute value is taken). -/
def stallCondition (allObj : ℕ → ℝ) (epsStall : ℝ) (itr : ℕ) : Prop :=
  0 < itr ∧ allObj (itr - 1) - allObj itr < epsStall * allObj (itr - 1)

/-- C1 (amended): the stall branch tests the signed difference
`all_obj[itr-1] - all_obj[itr] < eps_stall * all_obj[itr-1]` for `itr > 0`;
consequently an iteration whose objective increases relative to the previous one
IS flagged as stalled by that branch whenever `eps_stall` and the previous
objective are nonnegative (the signed difference is then negative, hence below
the nonnegative stall bound). -/
theorem stall_condition_spec :
    (∀ (allObj : ℕ → ℝ) (epsStall : ℝ) (itr : ℕ),
      stallCondition allObj epsStall itr ↔
        0 < itr ∧ allObj (itr - 1) - allObj itr < epsStall * allObj (itr - 1))
    ∧ (∀ (allObj : ℕ → ℝ) (epsStall : ℝ) (itr : ℕ),
        0 < itr → 0 ≤ epsStall → 0 ≤ allObj (itr - 1) →
        allObj (itr - 1) < allObj itr →
        stallCondition allObj epsStall itr) := by
  constructor
  · intro allObj eps itr
    exact Iff.rfl
  · intro allObj eps itr hitr heps hnn hinc
    refine ⟨hitr, ?_⟩
    have h1 : allObj (itr - 1) - allObj itr < 0 := by linarith
    have h2 : 0 ≤ eps * allObj (itr - 1) := mul_nonneg heps hnn
    linarith

/-- Objective history with a slight increase from iteration 0 to iteration 1. -/
def demoObj : ℕ → ℝ := fun i => if i = 0 then 1 else 2

/-- C1 (counterexample): with previous objective 1, current objective 2 and the
default `eps_stall = 1e-12`, the objective increases yet the stall branch fires,
refuting "an iteration whose objective increases slightly is not flagged as
stalled by that branch". -/
theorem stall_increase_counterexample :
    demoObj 0 < demoObj 1 ∧ stallCondition demoObj (1 / 10 ^ 12) 1 := by
  refine ⟨by norm_num [demoObj], ⟨by norm_num, ?_⟩⟩
  norm_num [demoObj]

/-- C1 (witness): the amended theorem applied at the concrete increasing
history `demoObj` with `eps_stall = 0` and `itr = 1`. -/
theorem stall_condition_spec_witness :
    (0 < 1 ∧ (0 : ℝ) ≤ 0 ∧ (0 : ℝ) ≤ demoObj 0 ∧ demoObj 0 < demoObj 1)
    ∧ stallCondition demoObj 0 1 :=
  ⟨⟨by norm_num, le_refl 0, by norm_num [demoObj], by norm_num [demoObj]⟩,
   stall_condition_spec.2 demoObj 0 1 (by norm_num) (le_refl 0)
     (by norm_num [demoObj]) (by norm_num [demoObj])⟩

/-- Euclidean norm of row `i` of `B`: `np.linalg.norm(B, axis=1)`. -/
noncomputable def rowNorm {m n : ℕ} (B : Matrix (Fin m) (Fin n) ℂ) (i : Fin m) : ℝ :=
  Real.sqrt (∑ j, Complex.abs (B i j) ^ 2)

/-- Double-precision machine epsilon `np.finfo(float).eps = 2^-52`. -/
noncomputable def machineEps : ℝ := 1 / 2 ^ 52

/-- `np.max(b)` over the row amplitudes (rows are nonempty). -/
noncomputable def maxAmp {m n : ℕ} (B : Matrix (Fin (m + 1)) (Fin n) ℂ) : ℝ :=
  Finset.univ.sup' Finset.univ_nonempty (rowNorm B)

/-- `split_B` from `sbopdmd_utils.py`: amplitudes `b = np.linalg.norm(B, axis=1)`;
rows with `|b_i| < 10 * eps * max(b)` have their divisor replaced by `1.0`, the
normalized row forced to zero and the amplitude forced to zero; the remaining
rows of `B` are divided by their amplitude. -/
noncomputable def split_B {m n : ℕ} (B : Matrix (Fin (m + 1)) (Fin n) ℂ) :
    Matrix (Fin (m + 1)) (Fin n) ℂ × (Fin (m + 1) → ℝ) :=
  let b : Fin (m + 1) → ℝ := fun i =>
    if |rowNorm B i| < 10 * machineEps * maxAmp B then 1 else rowNorm B i
  let B_normalized : Matrix (Fin (m + 1)) (Fin n) ℂ := Matrix.of fun i j =>
    if |rowNorm B i| < 10 * machineEps * maxAmp B then 0
    else ((1 / b i : ℝ) : ℂ) * B i j
  let b_out : Fin (m + 1) → ℝ := fun i =>
    if |rowNorm B i| < 10 * machineEps * maxAmp B then 0 else rowNorm B i
  (B_normalized, b_out)

lemma rowNorm_nonneg {m n : ℕ} (B : Matrix (Fin m) (Fin n) ℂ) (i : Fin m) :
    0 ≤ rowNorm B i := by
  rw [rowNorm]
  exact Real.sqrt_nonneg _

lemma rowNorm_pos_of_entry_ne_zero {m n : ℕ} {B : Matrix (Fin m) (Fin n) ℂ}
    {i : Fin m} {j : Fin n} (h : B i j ≠ 0) : 0 < rowNorm B i := by
  rw [rowNorm]
  apply Real.sqrt_pos.mpr
  apply Finset.sum_pos' (fun k _ => by positivity)
  refine ⟨j, Finset.mem_univ j, ?_⟩
  have habs : 0 < Complex.abs (B i j) := AbsoluteValue.pos _ h
  positivity

/-- C8: for every `B` with at least one nonzero entry, `split_B B = (Bn, b)`
satisfies: rows below the degeneracy threshold `10 * eps * max(b)` have
amplitude exactly `0` and normalized row exactly `0`; every other row satisfies
`b_i * Bn_i,j = B_i,j`, so `diag(b) * Bn` reconstructs `B` outside the
degenerate rows (and no division by a near-zero amplitude occurs, the divisor
being at least the positive threshold). -/
theorem split_B_reconstruction {m n : ℕ} (B : Matrix (Fin (m + 1)) (Fin n) ℂ)
    (h : ∃ i j, B i j ≠ 0) (i : Fin (m + 1)) :
    (|rowNorm B i| < 10 * machineEps * maxAmp B →
      (split_B B).2 i = 0 ∧ ∀ j, (split_B B).1 i j = 0)
    ∧ (¬ |rowNorm B i| < 10 * machineEps * maxAmp B →
        ∀ j, (((split_B B).2 i : ℝ) : ℂ) * (split_B B).1 i j = B i j) := by
  constructor
  · intro hs
    constructor
    · simp [split_B, hs]
    · intro j
      simp [split_B, hs]
  · intro hs j
    obtain ⟨i0, j0, h0⟩ := h
    have hpos0 : 0 < rowNorm B i0 := rowNorm_pos_of_entry_ne_zero h0
    have hmax : rowNorm B i0 ≤ maxAmp B := Finset.le_sup' (rowNorm B) (Finset.mem_univ i0)
    have hmaxpos : 0 < maxAmp B := lt_of_lt_of_le hpos0 hmax
    have hme : (0 : ℝ) < machineEps := by
      rw [machineEps]
      norm_num
    have hthresh : 0 < 10 * machineEps * maxAmp B :=
      mul_pos (mul_pos (by norm_num) hme) hmaxpos
    have hpos : 0 < rowNorm B i := by
      have habs : 0 < |rowNorm B i| := lt_of_lt_of_le hthresh (not_lt.mp hs)
      rwa [abs_of_nonneg (rowNorm_nonneg B i)] at habs
    simp only [split_B, Matrix.of_apply, if_neg hs]
    rw [← mul_assoc, ← Complex.ofReal_mul, mul_one_div, div_self hpos.ne',
      Complex.ofReal_one, one_mul]

/-- C8 (witness): the reconstruction theorem applied at the concrete nonzero
matrix `[[3]]` and row index `0`. -/
theorem split_B_reconstruction_witness :
    (∃ i j, demoB i j ≠ 0) ∧
    ((|rowNorm demoB 0| < 10 * machineEps * maxAmp demoB →
      (split_B demoB).2 0 = 0 ∧ ∀ j, (split_B demoB).1 0 j = 0)
    ∧ (¬ |rowNorm demoB 0| < 10 * machineEps * maxAmp demoB →
        ∀ j, (((split_B demoB).2 0 : ℝ) : ℂ) * (split_B demoB).1 0 j = demoB 0 j)) :=
  ⟨⟨0, 0, by rw [demoB_apply]; norm_num⟩,
   split_B_reconstruction demoB ⟨0, 0, by rw [demoB_apply]; norm_num⟩ 0⟩

def regNameL0 : String := "l0"

def regNameL1 : String := "l1"

def regNameL2 : String := "l2"

def regNameL02 : String := "l02"

def regNameL12 : String := "l12"

/-- The tuple `supported_regularizers` of `SparseBOPDMD.__init__`. -/
def supported_regularizers : List String :=
  [regNameL0, regNameL1, regNameL2, regNameL02, regNameL12]

def invalidPresetMsg : String := "Invalid mode_regularizer preset provided."

def missingProxMsg : String := "Custom mode_regularizer was provided without mode_prox."

/-- The `mode_regularizer` constructor argument of `SparseBOPDMD`: Python
`None`, a preset name string, or a custom function. -/
inductive RegSetting (m n : ℕ) where
  | none : RegSetting m n
  | preset : String → RegSetting m n
  | custom : (Matrix (Fin m) (Fin n) ℂ → ℝ) → RegSetting m n

/-- Configuration state of a constructed `SparseBOPDMD` instance: the stored
`mode_regularizer`, the stored `mode_prox`, and the regularizer parameters
`lambda` and `lambda_2` (after default filling). -/
structure SparseBOPDMD (m n : ℕ) where
  regularizer : RegSetting m n
  prox : Option (Matrix (Fin m) (Fin n) ℂ → ℝ → Matrix (Fin m) (Fin n) ℂ)
  lam : ℝ
  lam2 : ℝ

/-- Validation logic of `SparseBOPDMD.__init__`: a string regularizer outside
the supported presets raises `ValueError`; a custom regularizer function with
`mode_prox is None` raises `ValueError`; otherwise the instance is built, with
missing `lambda` / `lambda_2` parameters defaulted to `1.0` / `1e-6`. -/
noncomputable def SparseBOPDMD.init {m n : ℕ} (reg : RegSetting m n)
    (mode_prox : Option (Matrix (Fin m) (Fin n) ℂ → ℝ → Matrix (Fin m) (Fin n) ℂ))
    (lamOpt lam2Opt : Option ℝ) : Except String (SparseBOPDMD m n) :=
  match reg with
  | RegSetting.preset s =>
    if s ∈ supported_regularizers then
      Except.ok ⟨RegSetting.preset s, mode_prox, lamOpt.getD 1, lam2Opt.getD (1 / 1000000)⟩
    else Except.error invalidPresetMsg
  | RegSetting.custom f =>
    match mode_prox with
    | Option.none => Except.error missingProxMsg
    | Option.some p =>
      Except.ok ⟨RegSetting.custom f, Option.some p, lamOpt.getD 1, lam2Opt.getD (1 / 1000000)⟩
  | RegSetting.none =>
    Except.ok ⟨RegSetting.none, mode_prox, lamOpt.getD 1, lam2Opt.getD (1 / 1000000)⟩

/-- The `mode_regularizer` method of `SparseBOPDMD`: a custom function is used
directly; otherwise the preset name selects the closed-form regularizer; if no
branch matches (in particular for `None`), the Python method falls through and
returns `None`. -/
noncomputable def SparseBOPDMD.mode_regularizer {m n : ℕ} (c : SparseBOPDMD m n)
    (X : Matrix (Fin m) (Fin n) ℂ) : Option ℝ :=
  match c.regularizer with
  | RegSetting.custom f => Option.some (f X)
  | RegSetting.preset s =>
    if s = regNameL0 then Option.some (c.lam * L0_norm X)
    else if s = regNameL1 then Option.some (c.lam * L1_norm X)
    else if s = regNameL2 then Option.some (c.lam * L2_norm X)
    else if s = regNameL02 then
      Option.some (c.lam * L0_norm X + c.lam2 * L2_norm_squared X)
    else if s = regNameL12 then
      Option.some (c.lam * L1_norm X + c.lam2 * L2_norm_squared X)
    else Option.none
  | RegSetting.none => Option.none

/-- The `mode_prox` method of `SparseBOPDMD`: a custom prox function is used
directly; otherwise the preset regularizer name selects the matching threshold
operator; if no branch matches (in particular for `None`), the Python method
falls through and returns `None`. -/
noncomputable def SparseBOPDMD.mode_prox {m n : ℕ} (c : SparseBOPDMD m n)
    (X : Matrix (Fin m) (Fin n) ℂ) (t : ℝ) : Option (Matrix (Fin m) (Fin n) ℂ) :=
  match c.prox with
  | Option.some p => Option.some (p X t)
  | Option.none =>
    match c.regularizer with
    | RegSetting.preset s =>
      if s = regNameL0 then Option.some (hard_threshold X (c.lam * t))
      else if s = regNameL1 then Option.some (soft_threshold X (c.lam * t))
      else if s = regNameL2 then Option.some (group_lasso X (c.lam * t))
      else if s = regNameL02 then Option.some (scaled_hard_threshold X t c.lam c.lam2)
      else if s = regNameL12 then Option.some (scaled_soft_threshold X t c.lam c.lam2)
      else Option.none
    | _ => Option.none

/-- The reference test matrix
`A = [[-100,-1,0,1,100],[-100j,-1j,0,1j,100j]]`. -/
noncomputable def demoA : Matrix (Fin 2) (Fin 5) ℂ :=
  !![-100, -1, 0, 1, 100;
     -100 * Complex.I, -Complex.I, 0, Complex.I, 100 * Complex.I]

lemma L0_demoA : L0_norm demoA = 8 := by
  rw [L0_norm]
  simp only [Fin.sum_univ_two, Fin.sum_univ_five]
  norm_num [demoA, mul_eq_zero, Complex.I_ne_zero]

/-- C5: on a constructed preset instance, `mode_regularizer` evaluates to the
closed-form preset value: `lambda * L0_norm` for "l0", `lambda * L1_norm` for
"l1", `lambda * L2_norm` for "l2", and the base term plus
`lambda_2 * L2_norm_squared` for "l02" / "l12"; in particular for the reference
matrix `A` with preset "l0" and `lambda = 5`, the value is `40`. -/
theorem mode_regularizer_presets :
    (∀ (m n : ℕ) (lam lam2 : ℝ)
        (p : Option (Matrix (Fin m) (Fin n) ℂ → ℝ → Matrix (Fin m) (Fin n) ℂ))
        (X : Matrix (Fin m) (Fin n) ℂ),
      SparseBOPDMD.mode_regularizer ⟨RegSetting.preset regNameL0, p, lam, lam2⟩ X
          = Option.some (lam * L0_norm X)
      ∧ SparseBOPDMD.mode_regularizer ⟨RegSetting.preset regNameL1, p, lam, lam2⟩ X
          = Option.some (lam * L1_norm X)
      ∧ SparseBOPDMD.mode_regularizer ⟨RegSetting.preset regNameL2, p, lam, lam2⟩ X
          = Option.some (lam * L2_norm X)
      ∧ SparseBOPDMD.mode_regularizer ⟨RegSetting.preset regNameL02, p, lam, lam2⟩ X
          = Option.some (lam * L0_norm X + lam2 * L2_norm_squared X)
      ∧ SparseBOPDMD.mode_regularizer ⟨RegSetting.preset regNameL12, p, lam, lam2⟩ X
          = Option.some (lam * L1_norm X + lam2 * L2_norm_squared X))
    ∧ SparseBOPDMD.mode_regularizer
        (⟨RegSetting.preset regNameL0, Option.none, 5, 1 / 1000000⟩ : SparseBOPDMD 2 5)
        demoA = Option.some 40 := by
  constructor
  · intro m n lam lam2 p X
    refine ⟨?_, ?_, ?_, ?_, ?_⟩ <;>
      simp [SparseBOPDMD.mode_regularizer, regNameL0, regNameL1, regNameL2,
        regNameL02, regNameL12]
  · rw [show SparseBOPDMD.mode_regularizer
        (⟨RegSetting.preset regNameL0, Option.none, 5, 1 / 1000000⟩ : SparseBOPDMD 2 5)
        demoA = Option.some (5 * L0_norm demoA) from by
      simp [SparseBOPDMD.mode_regularizer]]
    rw [L0_demoA]
    norm_num

def regNameInvalid : String := "invalid_name"

/-- C9: construction fails with a configuration error when the regularizer is a
string outside the supported presets, and when a custom regularizer function is
supplied while `mode_prox` is `None`. -/
theorem init_validation :
    (∀ (m n : ℕ) (s : String)
        (p : Option (Matrix (Fin m) (Fin n) ℂ → ℝ → Matrix (Fin m) (Fin n) ℂ))
        (lo l2o : Option ℝ),
      s ∉ supported_regularizers →
      SparseBOPDMD.init (RegSetting.preset s) p lo l2o = Except.error invalidPresetMsg)
    ∧ (∀ (m n : ℕ) (f : Matrix (Fin m) (Fin n) ℂ → ℝ) (lo l2o : Option ℝ),
      SparseBOPDMD.init (RegSetting.custom f) Option.none lo l2o
        = Except.error missingProxMsg) := by
  constructor
  · intro m n s p lo l2o hs
    simp [SparseBOPDMD.init, hs]
  · intro m n f lo l2o
    simp [SparseBOPDMD.init]

/-- C9 (witness): the validation theorem applied at the concrete invalid preset
name "invalid_name". -/
theorem init_validation_witness :
    regNameInvalid ∉ supported_regularizers ∧
    SparseBOPDMD.init (RegSetting.preset regNameInvalid : RegSetting 1 1)
      Option.none Option.none Option.none = Except.error invalidPresetMsg :=
  ⟨by decide,
   init_validation.1 1 1 regNameInvalid Option.none Option.none Option.none (by decide)⟩

/-- C10: construction with `mode_regularizer = None` (neither preset nor
function) succeeds with no configuration error, and on such an instance the
`mode_regularizer` and `mode_prox` methods fall through every branch and return
`None` for every input. -/
theorem default_none_regularizer :
    (∀ (m n : ℕ) (lo l2o : Option ℝ),
      SparseBOPDMD.init (RegSetting.none : RegSetting m n) Option.none lo l2o
        = Except.ok ⟨RegSetting.none, Option.none, lo.getD 1, l2o.getD (1 / 1000000)⟩)
    ∧ (∀ (m n : ℕ) (lam lam2 : ℝ) (X : Matrix (Fin m) (Fin n) ℂ),
      SparseBOPDMD.mode_regularizer ⟨RegSetting.none, Option.none, lam, lam2⟩ X
        = Option.none)
    ∧ (∀ (m n : ℕ) (lam lam2 : ℝ) (X : Matrix (Fin m) (Fin n) ℂ) (t : ℝ),
      SparseBOPDMD.mode_prox ⟨RegSetting.none, Option.none, lam, lam2⟩ X t
        = Option.none) := by
  refine ⟨?_, ?_, ?_⟩
  · intro m n lo l2o
    simp [SparseBOPDMD.init]
  · intro m n lam lam2 X
    simp [SparseBOPDMD.mode_regularizer]
  · intro m n lam lam2 X t
    simp [SparseBOPDMD.mode_prox]

/-- Squared Frobenius norm `np.linalg.norm(R, "fro") ** 2`. -/
noncomputable def frobNormSq {m n : ℕ} (R : Matrix (Fin m) (Fin n) ℂ) : ℝ :=
  ∑ i, ∑ j, Complex.abs (R i j) ^ 2

/-- Frobenius norm `np.linalg.norm(R)` (numpy's default matrix norm). -/
noncomputable def frobNorm {m n : ℕ} (R : Matrix (Fin m) (Fin n) ℂ) : ℝ :=
  Real.sqrt (frobNormSq R)

/-- One candidate alpha of `_compute_alpha_levmarq`: the damped least-squares
step `delta(lam)` is added to `alpha_0` and the result is passed through the
eigenvalue-constraint projection `_push_eigenvalues`.  The least-squares solve
(`np.linalg.lstsq` on the pivoted QR factors) is an external linear-algebra
routine and enters as the function parameter `delta`. -/
noncomputable def lmStep {ia : ℕ} (pushEig : (Fin ia → ℂ) → Fin ia → ℂ)
    (alpha0 : Fin ia → ℂ) (delta : ℝ → Fin ia → ℂ) (lam : ℝ) : Fin ia → ℂ :=
  pushEig (fun k => alpha0 k + delta lam k)

/-- The residual objective used by `_compute_alpha_levmarq` to compare
candidate alphas: `np.linalg.norm(H - Phi(alpha, t).dot(B), "fro") ** 2`
(the regularizer term is deliberately omitted; B is fixed). -/
noncomputable def lmObjective {mm ns ia : ℕ} (H : Matrix (Fin mm) (Fin ns) ℂ)
    (Phi : (Fin ia → ℂ) → Matrix (Fin mm) (Fin ia) ℂ)
    (B : Matrix (Fin ia) (Fin ns) ℂ) (a : Fin ia → ℂ) : ℝ :=
  frobNormSq (H - Phi a * B)

/-- The damping search loop of `_compute_alpha_levmarq`: starting at index `j`
with `r` tries remaining, return the first candidate whose objective strictly
improves on `objective`, and `alpha0` if no try is left. -/
noncomputable def lmLoop {α : Type} (cand : ℕ → α) (objOf : α → ℝ)
    (objective : ℝ) (alpha0 : α) : ℕ → ℕ → α
  | _, 0 => alpha0
  | j, Nat.succ r =>
    if objOf (cand j) < objective then cand j
    else lmLoop cand objOf objective alpha0 (j + 1) r

/-- `_compute_alpha_levmarq` from `sbopdmd.py`: try the damping values
`init_lambda * lamup ** j` for `j = 0 .. maxlam` in order; accept the first
constrained candidate whose squared-Frobenius residual objective strictly
improves on the objective at `alpha_0`; return `alpha_0` unchanged if none
improves. -/
noncomputable def computeAlphaLevmarq {mm ns ia : ℕ}
    (H : Matrix (Fin mm) (Fin ns) ℂ)
    (Phi : (Fin ia → ℂ) → Matrix (Fin mm) (Fin ia) ℂ)
    (B : Matrix (Fin ia) (Fin ns) ℂ)
    (pushEig : (Fin ia → ℂ) → Fin ia → ℂ)
    (delta : ℝ → Fin ia → ℂ)
    (alpha0 : Fin ia → ℂ)
    (init_lambda lamup : ℝ) (maxlam : ℕ) : Fin ia → ℂ :=
  lmLoop (fun j => lmStep pushEig alpha0 delta (init_lambda * lamup ^ j))
    (lmObjective H Phi B) (lmObjective H Phi B alpha0) alpha0 0 (maxlam + 1)

lemma lmLoop_of_none {α : Type} (cand : ℕ → α) (objOf : α → ℝ)
    (objective : ℝ) (alpha0 : α) :
    ∀ (r j : ℕ), (∀ k, k < r → ¬ objOf (cand (j + k)) < objective) →
      lmLoop cand objOf objective alpha0 j r = alpha0 := by
  intro r
  induction r with
  | zero =>
    intro j _
    rw [lmLoop]
  | succ r ih =>
    intro j h
    rw [lmLoop, if_neg (by simpa using h 0 (Nat.succ_pos r))]
    exact ih (j + 1) fun k hk => by
      have := h (k + 1) (Nat.succ_lt_succ hk)
      rwa [show j + (k + 1) = j + 1 + k from by omega] at this

lemma lmLoop_of_first {α : Type} (cand : ℕ → α) (objOf : α → ℝ)
    (objective : ℝ) (alpha0 : α) :
    ∀ (r j k : ℕ), k < r → objOf (cand (j + k)) < objective →
      (∀ i, i < k → ¬ objOf (cand (j + i)) < objective) →
      lmLoop cand objOf objective alpha0 j r = cand (j + k) := by
  intro r
  induction r with
  | zero =>
    intro j k hk
    exact absurd hk (Nat.not_lt_zero k)
  | succ r ih =>
    intro j k hk himp hmin
    match k with
    | 0 =>
      rw [lmLoop, if_pos (by simpa using himp)]
      simp
    | k + 1 =>
      rw [lmLoop, if_neg (by simpa using hmin 0 (Nat.succ_pos k))]
      have h1 : objOf (cand (j + 1 + k)) < objective := by
        rwa [show j + 1 + k = j + (k + 1) from by omega]
      have h2 : ∀ i, i < k → ¬ objOf (cand (j + 1 + i)) < objective := by
        intro i hi
        have := hmin (i + 1) (Nat.succ_lt_succ hi)
        rwa [show j + (i + 1) = j + 1 + i from by omega] at this
      rw [ih (j + 1) k (Nat.lt_of_succ_lt_succ hk) h1 h2]
      rw [show j + 1 + k = j + (k + 1) from by omega]

/-- C6: in `_compute_alpha_levmarq`, the damping candidates
`init_lambda * lamup ^ j` for `j = 0 .. maxlam` are tried in order; each
candidate is the constrained vector `pushEig (alpha_0 + delta(lam_j))`; the
first candidate whose squared-Frobenius residual objective is strictly smaller
than the objective at `alpha_0` is returned, and if none of the `maxlam + 1`
candidates improves, `alpha_0` is returned unchanged (no error is raised: the
function is total). -/
theorem compute_alpha_levmarq_spec (mm ns ia : ℕ)
    (H : Matrix (Fin mm) (Fin ns) ℂ)
    (Phi : (Fin ia → ℂ) → Matrix (Fin mm) (Fin ia) ℂ)
    (B : Matrix (Fin ia) (Fin ns) ℂ)
    (pushEig : (Fin ia → ℂ) → Fin ia → ℂ)
    (delta : ℝ → Fin ia → ℂ)
    (alpha0 : Fin ia → ℂ)
    (init_lambda lamup : ℝ) (maxlam : ℕ) :
    ((∀ j, j ≤ maxlam →
        ¬ lmObjective H Phi B (lmStep pushEig alpha0 delta (init_lambda * lamup ^ j))
            < lmObjective H Phi B alpha0) →
      computeAlphaLevmarq H Phi B pushEig delta alpha0 init_lambda lamup maxlam = alpha0)
    ∧ (∀ j0, j0 ≤ maxlam →
        lmObjective H Phi B (lmStep pushEig alpha0 delta (init_lambda * lamup ^ j0))
          < lmObjective H Phi B alpha0 →
        (∀ j, j < j0 →
          ¬ lmObjective H Phi B (lmStep pushEig alpha0 delta (init_lambda * lamup ^ j))
              < lmObjective H Phi B alpha0) →
        computeAlphaLevmarq H Phi B pushEig delta alpha0 init_lambda lamup maxlam
          = lmStep pushEig alpha0 delta (init_lambda * lamup ^ j0)) := by
  constructor
  · intro h
    exact lmLoop_of_none _ _ _ _ (maxlam + 1) 0 fun k hk => by
      simpa using h k (Nat.lt_succ_iff.mp hk)
  · intro j0 hj0 himp hmin
    have := lmLoop_of_first
      (fun j => lmStep pushEig alpha0 delta (init_lambda * lamup ^ j))
      (lmObjective H Phi B) (lmObjective H Phi B alpha0) alpha0
      (maxlam + 1) 0 j0 (Nat.lt_succ_iff.mpr hj0) (by simpa using himp)
      (fun i hi => by simpa using hmin i hi)
    simpa using this

/-- Degenerate concrete inputs for the witness: everything zero, so no damping
candidate can strictly improve the (zero) objective. -/
noncomputable def demoH6 : Matrix (Fin 1) (Fin 1) ℂ := 0

noncomputable def demoPhi6 : (Fin 1 → ℂ) → Matrix (Fin 1) (Fin 1) ℂ := fun _ => 0

noncomputable def demoB6 : Matrix (Fin 1) (Fin 1) ℂ := 0

noncomputable def demoDelta6 : ℝ → Fin 1 → ℂ := fun _ _ => 0

noncomputable def demoAlpha6 : Fin 1 → ℂ := fun _ => 1

/-- C6 (witness): on the all-zero concrete system no candidate improves the
objective, so the Levenberg-Marquardt search returns `alpha_0` unchanged. -/
theorem compute_alpha_levmarq_spec_witness :
    computeAlphaLevmarq demoH6 demoPhi6 demoB6 id demoDelta6 demoAlpha6 1 2 0
      = demoAlpha6 :=
  (compute_alpha_levmarq_spec 1 1 1 demoH6 demoPhi6 demoB6 id demoDelta6
      demoAlpha6 1 2 0).1
    (by
      intro j _
      rw [lmObjective, lmObjective]
      rw [show demoPhi6 (lmStep id demoAlpha6 demoDelta6 (1 * 2 ^ j)) * demoB6 = 0
        from by rw [demoB6]; exact Matrix.mul_zero _]
      rw [show demoPhi6 demoAlpha6 * demoB6 = 0
        from by rw [demoB6]; exact Matrix.mul_zero _]
      exact lt_irrefl _)

/-- Parameters of `accelerated_prox_grad` in `sbopdmd_utils.py`: objective
pieces `f` and `g`, gradient of `f`, proximal operator of `g`, smoothness
constant `beta_f`, tolerance, and the restart flag. -/
structure APGParams (m n : ℕ) where
  func_f : Matrix (Fin m) (Fin n) ℂ → ℝ
  func_g : Matrix (Fin m) (Fin n) ℂ → ℝ
  grad_f : Matrix (Fin m) (Fin n) ℂ → Matrix (Fin m) (Fin n) ℂ
  prox_g : Matrix (Fin m) (Fin n) ℂ → ℝ → Matrix (Fin m) (Fin n) ℂ
  beta_f : ℝ
  tol : ℝ
  use_restarts : Bool

/-- Loop state of `accelerated_prox_grad`: primal iterate `X`, momentum iterate
`Y`, momentum coefficient `t`, and the objective / error histories written so
far (`obj_hist[:iter_count]`, `err_hist[:iter_count]`). -/
structure APGState (m n : ℕ) where
  X : Matrix (Fin m) (Fin n) ℂ
  Y : Matrix (Fin m) (Fin n) ℂ
  t : ℝ
  objH : List ℝ
  errH : List ℝ

/-- The proximal gradient step `X_new = prox_g(Y - step * grad_f(Y), step)`
with `step = 1 / beta_f`. -/
noncomputable def apgXnew {m n : ℕ} (P : APGParams m n) (s : APGState m n) :
    Matrix (Fin m) (Fin n) ℂ :=
  P.prox_g (s.Y - (1 / P.beta_f) • P.grad_f s.Y) (1 / P.beta_f)

/-- The objective value recorded per iteration: `func_f(X_new) + func_g(X_new)`. -/
noncomputable def apgObjVal {m n : ℕ} (P : APGParams m n) (s : APGState m n) : ℝ :=
  P.func_f (apgXnew P s) + P.func_g (apgXnew P s)

/-- The step-error value recorded per iteration: `norm(X - X_new)`. -/
noncomputable def apgErrVal {m n : ℕ} (P : APGParams m n) (s : APGState m n) : ℝ :=
  frobNorm (s.X - apgXnew P s)

/-- One iteration of the `while` body of `accelerated_prox_grad`: proximal
gradient step, momentum update `t_new = 0.5 * (1 + sqrt(1 + 4 t^2))`,
`Y_new = X_new + ((t - 1)/t_new) * (X_new - X)`, history append, and the
optional momentum restart `t = 1.0` when `use_restarts`, `iter_count > 1` and
the objective got worse than at the previous iteration. -/
noncomputable def apgIter {m n : ℕ} (P : APGParams m n) (s : APGState m n) :
    APGState m n :=
  let Xn := apgXnew P s
  let tn := 0.5 * (1 + Real.sqrt (1 + 4 * s.t ^ 2))
  let Yn := Xn + (((s.t - 1) / tn : ℝ)) • (Xn - s.X)
  let tFinal := if P.use_restarts = true ∧ 1 < s.objH.length
      ∧ s.objH.getLastD 0 < apgObjVal P s then 1 else tn
  ⟨Xn, Yn, tFinal, s.objH ++ [apgObjVal P s], s.errH ++ [apgErrVal P s]⟩

/-- The `while err >= tol` loop of `accelerated_prox_grad`, with the remaining
iteration budget as fuel: after each iteration the loop stops if the recorded
error dropped below `tol`, or if the budget (`iter_count >= max_iter`) is
exhausted.  The initial error is `tol + 1.0`, so the first iteration always
runs when the budget allows it. -/
noncomputable def apgLoop {m n : ℕ} (P : APGParams m n) :
    ℕ → APGState m n → APGState m n
  | 0, s => s
  | Nat.succ f, s =>
    if (apgIter P s).errH.getLastD (P.tol + 1) < P.tol then apgIter P s
    else apgLoop P f (apgIter P s)

/-- `accelerated_prox_grad` from `sbopdmd_utils.py`: run the solver loop from
`X = Y = X0`, `t = 1.0` with empty histories, and return the final iterate
together with the truncated objective and error histories. -/
noncomputable def accelerated_prox_grad {m n : ℕ} (P : APGParams m n)
    (X0 : Matrix (Fin m) (Fin n) ℂ) (max_iter : ℕ) :
    Matrix (Fin m) (Fin n) ℂ × List ℝ × List ℝ :=
  let s := apgLoop P max_iter ⟨X0, X0, 1, [], []⟩
  (s.X, s.objH, s.errH)

lemma apgIter_objH {m n : ℕ} (P : APGParams m n) (s : APGState m n) :
    (apgIter P s).objH = s.objH ++ [apgObjVal P s] := rfl

lemma apgIter_errH {m n : ℕ} (P : APGParams m n) (s : APGState m n) :
    (apgIter P s).errH = s.errH ++ [apgErrVal P s] := rfl

lemma apgLoop_spec {m n : ℕ} (P : APGParams m n) :
    ∀ (fuel : ℕ) (s : APGState m n),
      s.objH.length = s.errH.length →
      ((apgLoop P fuel s).objH.length = (apgLoop P fuel s).errH.length
      ∧ (∃ tl, (apgLoop P fuel s).errH = s.errH ++ tl)
      ∧ s.errH.length ≤ (apgLoop P fuel s).errH.length
      ∧ (apgLoop P fuel s).errH.length ≤ s.errH.length + fuel
      ∧ (0 < fuel → s.errH.length < (apgLoop P fuel s).errH.length)
      ∧ ((apgLoop P fuel s).errH.length < s.errH.length + fuel →
          (apgLoop P fuel s).errH.getLastD (P.tol + 1) < P.tol)
      ∧ (∀ k, s.errH.length ≤ k → k + 1 < (apgLoop P fuel s).errH.length →
          P.tol ≤ (apgLoop P fuel s).errH.getD k (P.tol + 1))) := by
  intro fuel
  induction fuel with
  | zero =>
    intro s h
    rw [apgLoop]
    exact ⟨h, ⟨[], by simp⟩, le_refl _, by omega, by omega,
      fun hlt => absurd hlt (by omega), fun k hk hk2 => absurd hk2 (by omega)⟩
  | succ f ih =>
    intro s h
    have he : (apgIter P s).errH = s.errH ++ [apgErrVal P s] := apgIter_errH P s
    have hlen' : (apgIter P s).objH.length = (apgIter P s).errH.length := by
      rw [apgIter_objH, he]
      simp [h]
    have hlen1 : (apgIter P s).errH.length = s.errH.length + 1 := by
      rw [he]
      simp
    by_cases hc : (apgIter P s).errH.getLastD (P.tol + 1) < P.tol
    · have hres : apgLoop P (f + 1) s = apgIter P s := by
        rw [apgLoop, if_pos hc]
      rw [hres]
      refine ⟨hlen', ⟨[apgErrVal P s], he⟩, by omega, by omega, fun _ => by omega,
        fun _ => hc, ?_⟩
      intro k hk hk2
      rw [hlen1] at hk2
      exact absurd hk2 (by omega)
    · have hres : apgLoop P (f + 1) s = apgLoop P f (apgIter P s) := by
        rw [apgLoop, if_neg hc]
      obtain ⟨c1, ⟨tl, c2⟩, c3, c4, c5, c6, c7⟩ := ih (apgIter P s) hlen'
      rw [hres]
      rw [hlen1] at c3 c4
      refine ⟨c1, ⟨apgErrVal P s :: tl, by rw [c2, he]; simp⟩, by omega, by omega,
        fun _ => by omega, fun hl => c6 (by omega), ?_⟩
      intro k hk hk2
      rcases Nat.lt_or_ge k (s.errH.length + 1) with hklt | hkge
      · have hkeq : k = s.errH.length := by omega
        have hgd : (apgLoop P f (apgIter P s)).errH.getD k (P.tol + 1)
            = apgErrVal P s := by
          rw [c2, List.getD_append _ _ _ _ (by omega), he, hkeq,
            List.getD_append_right _ _ _ _ (le_refl _)]
          simp
        rw [hgd]
        have hlast : (apgIter P s).errH.getLastD (P.tol + 1) = apgErrVal P s := by
          rw [he]
          exact List.getLastD_concat _ _ _
        rw [hlast] at hc
        exact not_lt.mp hc
      · exact c7 k (by omega) hk2

/-- C7: for every `max_iter >= 1`, `accelerated_prox_grad` terminates with
objective and error histories of equal length, runs at least one and at most
`max_iter` iterations (each history entry corresponds to one iteration run),
stops early only when the recorded step error drops below `tol` (if the
histories are shorter than `max_iter`, the last error is below `tol`; every
error except possibly the last is at least `tol`), and raises no error on
non-convergence (the function is total and returns the last iterate with the
truncated histories). -/
theorem accelerated_prox_grad_termination {m n : ℕ} (P : APGParams m n)
    (X0 : Matrix (Fin m) (Fin n) ℂ) (max_iter : ℕ) (h : 1 ≤ max_iter) :
    (accelerated_prox_grad P X0 max_iter).2.1.length
        = (accelerated_prox_grad P X0 max_iter).2.2.length
    ∧ 1 ≤ (accelerated_prox_grad P X0 max_iter).2.2.length
    ∧ (accelerated_prox_grad P X0 max_iter).2.2.length ≤ max_iter
    ∧ ((accelerated_prox_grad P X0 max_iter).2.2.length < max_iter →
        (accelerated_prox_grad P X0 max_iter).2.2.getLastD (P.tol + 1) < P.tol)
    ∧ (∀ k, k + 1 < (accelerated_prox_grad P X0 max_iter).2.2.length →
        P.tol ≤ (accelerated_prox_grad P X0 max_iter).2.2.getD k (P.tol + 1)) := by
  have hacc1 : (accelerated_prox_grad P X0 max_iter).2.1
      = (apgLoop P max_iter (⟨X0, X0, 1, [], []⟩ : APGState m n)).objH := rfl
  have hacc2 : (accelerated_prox_grad P X0 max_iter).2.2
      = (apgLoop P max_iter (⟨X0, X0, 1, [], []⟩ : APGState m n)).errH := rfl
  obtain ⟨c1, _, _, c4, c5, c6, c7⟩ :=
    apgLoop_spec P max_iter (⟨X0, X0, 1, [], []⟩ : APGState m n) rfl
  rw [hacc1, hacc2]
  refine ⟨c1, ?_, ?_, ?_, ?_⟩
  · simpa using c5 (by omega)
  · simpa using c4
  · intro hl
    exact c6 (by simpa using hl)
  · intro k hk
    exact c7 k (by simp) hk

/-- Concrete degenerate parameters for the witness: zero objective, zero
gradient, identity prox. -/
noncomputable def demoP7 : APGParams 1 1 :=
  ⟨fun _ => 0, fun _ => 0, fun _ => 0, fun X _ => X, 1, 1, true⟩

/-- C7 (witness): the termination theorem applied with `max_iter = 1` at the
concrete zero starting point. -/
theorem accelerated_prox_grad_termination_witness :
    (1 ≤ 1
    ∧ (accelerated_prox_grad demoP7 0 1).2.1.length
        = (accelerated_prox_grad demoP7 0 1).2.2.length)
    ∧ (1 ≤ (accelerated_prox_grad demoP7 0 1).2.2.length
    ∧ (accelerated_prox_grad demoP7 0 1).2.2.length ≤ 1
    ∧ ((accelerated_prox_grad demoP7 0 1).2.2.length < 1 →
        (accelerated_prox_grad demoP7 0 1).2.2.getLastD (demoP7.tol + 1) < demoP7.tol)
    ∧ (∀ k, k + 1 < (accelerated_prox_grad demoP7 0 1).2.2.length →
        demoP7.tol ≤ (accelerated_prox_grad demoP7 0 1).2.2.getD k (demoP7.tol + 1))) :=
  ⟨⟨le_refl 1, (accelerated_prox_grad_termination demoP7 0 1 (le_refl 1)).1⟩,
   (accelerated_prox_grad_termination demoP7 0 1 (le_refl 1)).2⟩

end SBOPDMD
